import Mathlib

/-!
Verification of the real-time karaoke scoring core (frank).

This file shallowly embeds the scoring-relevant parts of the frontend
sources (pitchUtils / timeUtils, the weighted Scorer, NoteTracker,
GameEngine player/track assignment and per-player tick, and the
MicrophoneManager stereo channel router and pitch tracker) and proves the
testable properties stated in the specification.

Modelling conventions:
- JavaScript numbers are modelled as exact rationals wherever the source
  only performs field arithmetic and comparisons; values produced by
  Math.log2 (MIDI note numbers) are modelled as real numbers.
- JavaScript Math.round is floor (x + 1/2), and the remainder operator is
  applied in the source only to nonnegative dividends, where it agrees
  with flooring division.
- JavaScript Map objects are modelled as association lists with the
  insertion-order preserving set / delete semantics of Map.
-/

namespace Frank

/-- Note types of the chart format (field note_type in api types). -/
inductive NoteType where
  | normal
  | golden
  | freestyle
  | rap
  | goldenrap
deriving DecidableEq

/-- Chart note as loaded from the song JSON. -/
structure Note where
  note_type : NoteType
  start_beat : ℚ
  length : ℚ
  pitch : ℤ
  text : String
deriving DecidableEq

/-- Phrase boundary marker of the chart. -/
structure LineBreak where
  start_beat : ℚ
  end_beat : Option ℚ
deriving DecidableEq

/-- One pitch sample taken at one game-loop tick (game/types). -/
structure PitchSample where
  timeMs : ℚ
  frequency : ℚ
deriving DecidableEq

/-- Note enriched with its position and absolute time window (game/types). -/
structure GameNote extends Note where
  index : ℕ
  startTimeMs : ℚ
  endTimeMs : ℚ
deriving DecidableEq

/-- Result of scoring one completed note (game/types). -/
structure NoteResult where
  noteIndex : ℕ
  maxPoints : ℚ
  earnedPoints : ℤ
  accuracy : ℝ
  pitchSamples : List PitchSample

/-- JavaScript Math.round on the nonnegative-or-half values used here:
round half away from zero is floor (x + 1/2) for the values produced by
the scorer. -/
noncomputable def jsRound (x : ℝ) : ℤ := ⌊x + 1 / 2⌋

/-- JavaScript remainder x % y for the nonnegative dividends it is applied
to in pitchUtils (the dividend is always an absolute value there), where
it agrees with flooring division. -/
noncomputable def jsFmod (x y : ℝ) : ℝ := x - y * ⌊x / y⌋

/-- utils/pitchUtils.ts ultrastarPitchToMidi: pitch 0 is middle C (60). -/
def ultrastarPitchToMidi (pitch : ℤ) : ℤ := pitch + 60

/-- utils/pitchUtils.ts frequencyToMidi: 12 * log2 (freq / 440) + 69,
and 0 for a nonpositive frequency. -/
noncomputable def frequencyToMidi (freq : ℚ) : ℝ :=
  if freq ≤ 0 then 0 else 12 * Real.logb 2 ((freq : ℝ) / 440) + 69

/-- utils/pitchUtils.ts getPitchAccuracy: tolerance-banded scoring weight
of the octave-folded semitone distance between the detected frequency and
the expected UltraStar pitch. -/
noncomputable def getPitchAccuracy (detectedFreq : ℚ) (expectedPitch : ℤ) : ℝ :=
  if detectedFreq ≤ 0 then 0
  else
    let detectedMidi := frequencyToMidi detectedFreq
    let expectedMidi := (ultrastarPitchToMidi expectedPitch : ℝ)
    let diff0 := jsFmod |detectedMidi - expectedMidi| 12
    let diff := if 6 < diff0 then 12 - diff0 else diff0
    if diff ≤ 1 / 2 then 1
    else if diff ≤ 3 / 2 then 9 / 10
    else if diff ≤ 5 / 2 then 7 / 10
    else if diff ≤ 7 / 2 then 2 / 5
    else 0

/-- utils/pitchUtils.ts isPitchMatch: octave-tolerant match within the
given semitone tolerance (default 5/2). -/
noncomputable def isPitchMatch (detectedFreq : ℚ) (expectedPitch : ℤ)
    (tolerance : ℝ := 5 / 2) : Prop :=
  if detectedFreq ≤ 0 then False
  else
    let diff := jsFmod |frequencyToMidi detectedFreq -
      (ultrastarPitchToMidi expectedPitch : ℝ)| 12
    diff ≤ tolerance ∨ 12 - tolerance ≤ diff

/-- utils/timeUtils.ts beatToMs: UltraStar BPM is a quarter of the real
BPM, so one chart beat lasts 60000 / (bpm * 4) milliseconds. -/
def beatToMs (beat bpm gap : ℚ) : ℚ :=
  let msPerBeat := 60000 / (bpm * 4)
  gap + beat * msPerBeat

/-- utils/timeUtils.ts msToBeat, the inverse conversion. -/
def msToBeat (ms bpm gap : ℚ) : ℚ :=
  let msPerBeat := 60000 / (bpm * 4)
  (ms - gap) / msPerBeat

/-- Scorer.ts POINTS_PER_BEAT. -/
def POINTS_PER_BEAT : ℚ := 10

/-- Scorer.ts GOLDEN_MULTIPLIER. -/
def GOLDEN_MULTIPLIER : ℚ := 2

/-- Scorer.calculateNoteScore (weighted variant, game/Scorer.ts): maps a
completed note and its accumulated pitch samples to a NoteResult using
tolerance bands, a participation bonus and per-note-type rules. -/
noncomputable def calculateNoteScore (note : Note) (noteIndex : ℕ)
    (pitchSamples : List PitchSample) : NoteResult :=
  let multiplier :=
    if note.note_type = NoteType.golden ∨ note.note_type = NoteType.goldenrap then
      GOLDEN_MULTIPLIER else 1
  let maxPoints := note.length * POINTS_PER_BEAT * multiplier
  if note.note_type = NoteType.freestyle then
    { noteIndex := noteIndex, maxPoints := 0, earnedPoints := 0, accuracy := 1,
      pitchSamples := pitchSamples }
  else if note.note_type = NoteType.rap ∨ note.note_type = NoteType.goldenrap then
    let validSamples := pitchSamples.filter (fun s => 0 < s.frequency)
    let accuracy : ℝ :=
      if 0 < pitchSamples.length then
        (validSamples.length : ℝ) / (pitchSamples.length : ℝ) else 0
    { noteIndex := noteIndex, maxPoints := maxPoints,
      earnedPoints := jsRound ((maxPoints : ℝ) * accuracy), accuracy := accuracy,
      pitchSamples := pitchSamples }
  else if pitchSamples.length = 0 then
    { noteIndex := noteIndex, maxPoints := maxPoints, earnedPoints := 0,
      accuracy := 0, pitchSamples := pitchSamples }
  else
    let valid := pitchSamples.filter (fun s => 0 < s.frequency)
    let totalAccuracy : ℝ :=
      (valid.map (fun s => getPitchAccuracy s.frequency note.pitch)).sum
    let validSamples := valid.length
    let pitchAccuracy : ℝ :=
      if 0 < validSamples then totalAccuracy / (validSamples : ℝ) else 0
    let participationBonus : ℝ := if 0 < validSamples then 1 / 10 else 0
    let accuracy := min 1 (pitchAccuracy + participationBonus)
    { noteIndex := noteIndex, maxPoints := maxPoints,
      earnedPoints := jsRound ((maxPoints : ℝ) * accuracy), accuracy := accuracy,
      pitchSamples := pitchSamples }

/-- Scorer.calculateMaxScore: total possible score over the chart,
excluding freestyle notes. -/
def calculateMaxScore (notes : List Note) : ℚ :=
  notes.foldl
    (fun total note =>
      if note.note_type = NoteType.freestyle then total
      else
        let multiplier :=
          if note.note_type = NoteType.golden ∨ note.note_type = NoteType.goldenrap then
            GOLDEN_MULTIPLIER else 1
        total + note.length * POINTS_PER_BEAT * multiplier)
    0

/-- Spec-side definition (section 4.4 of the specification): the
tolerance-band weight of a semitone distance. -/
noncomputable def specBandWeight (dist : ℝ) : ℝ :=
  if dist ≤ 1 / 2 then 1
  else if dist ≤ 3 / 2 then 9 / 10
  else if dist ≤ 5 / 2 then 7 / 10
  else if dist ≤ 7 / 2 then 2 / 5
  else 0

/-- Spec-side definition: octave-folded semitone distance between a
detected frequency and the expected pitch class, wrapped to the
interval from 0 to 6. -/
noncomputable def specFoldedDistance (freq : ℚ) (expectedPitch : ℤ) : ℝ :=
  let d0 := jsFmod |frequencyToMidi freq - (ultrastarPitchToMidi expectedPitch : ℝ)| 12
  if 6 < d0 then 12 - d0 else d0

/-- Spec-side definition (section 4.4): maxPoints of a note, length in
beats times ten points per beat, doubled for golden and goldenrap. -/
def specMaxPoints (note : Note) : ℚ :=
  note.length * 10 *
    (if note.note_type = NoteType.golden ∨ note.note_type = NoteType.goldenrap
      then 2 else 1)

/-- Spec-side definition (section 4.4): accuracy of a normal or golden
note, namely the average over the samples with positive frequency of the
tolerance-band weight of the octave-folded semitone distance, plus a flat
participation bonus of one tenth when at least one such sample exists,
clamped to 1. -/
noncomputable def specWeightedAccuracy (note : Note)
    (samples : List PitchSample) : ℝ :=
  let valid := samples.filter (fun s => 0 < s.frequency)
  let avgWeight : ℝ :=
    if valid.length = 0 then 0
    else (valid.map (fun s =>
        specBandWeight (specFoldedDistance s.frequency note.pitch))).sum /
      (valid.length : ℝ)
  let bonus : ℝ := if valid.length = 0 then 0 else 1 / 10
  min 1 (avgWeight + bonus)

/-- One lyric phrase: a run of game notes between two line breaks
(game/types). -/
structure Phrase where
  notes : List GameNote
  startTimeMs : ℚ
  endTimeMs : ℚ
  lineBreak : Option LineBreak
deriving DecidableEq

/-- NoteTracker.processNotes, inner loop: enrich each chart note with its
position and its absolute millisecond window. The first argument is the
position of the head of the remaining list. -/
def processNotesFrom (bpm gap : ℚ) : ℕ → List Note → List GameNote
  | _, [] => []
  | i, note :: rest =>
    { toNote := note, index := i,
      startTimeMs := beatToMs note.start_beat bpm gap,
      endTimeMs := beatToMs (note.start_beat + note.length) bpm gap } ::
      processNotesFrom bpm gap (i + 1) rest

/-- NoteTracker.processNotes: map over the chart notes with indices. -/
def processNotes (notes : List Note) (bpm gap : ℚ) : List GameNote :=
  processNotesFrom bpm gap 0 notes

/-- NoteTracker.createPhrase: wrap a (nonempty at every call site) run of
notes into a Phrase spanning from the first note to the last. -/
def createPhrase (notes : List GameNote) (lineBreak : Option LineBreak) : Phrase :=
  { notes := notes,
    startTimeMs := ((notes.head?).map (fun n => n.startTimeMs)).getD 0,
    endTimeMs := ((notes.getLast?).map (fun n => n.endTimeMs)).getD 0,
    lineBreak := lineBreak }

/-- NoteTracker.buildPhrases, inner while loop: consume every still
unconsumed line break whose start_beat the current note has reached,
flushing the currently open phrase (once, when nonempty). The Option
argument is the most recently consumed line break. -/
def passLineBreaks (noteBeat : ℚ) :
    List Phrase → List GameNote → Option LineBreak → List LineBreak →
    List Phrase × List GameNote × Option LineBreak × List LineBreak
  | phrases, current, prev, [] => (phrases, current, prev, [])
  | phrases, current, prev, lb :: rest =>
    if lb.start_beat ≤ noteBeat then
      if current.isEmpty then
        passLineBreaks noteBeat phrases current (some lb) rest
      else
        passLineBreaks noteBeat (phrases ++ [createPhrase current prev]) []
          (some lb) rest
    else (phrases, current, prev, lb :: rest)

/-- NoteTracker.buildPhrases, outer for loop over the notes. -/
def buildPhrasesGo :
    List GameNote → List Phrase → List GameNote → Option LineBreak →
    List LineBreak → List Phrase
  | [], phrases, current, prev, _ =>
    if current.isEmpty then phrases else phrases ++ [createPhrase current prev]
  | note :: rest, phrases, current, prev, lineBreaks =>
    let r := passLineBreaks note.start_beat phrases current prev lineBreaks
    buildPhrasesGo rest r.1 (r.2.1 ++ [note]) r.2.2.1 r.2.2.2

/-- NoteTracker.buildPhrases: split the processed notes into phrases at
the line breaks; trailing notes form the final phrase, and a chart with
no notes yields no phrases. -/
def buildPhrases (notes : List GameNote) (lineBreaks : List LineBreak) :
    List Phrase :=
  if notes.isEmpty then [] else buildPhrasesGo notes [] [] none lineBreaks

/-- NoteTracker.getCurrentNote: the first note whose window contains the
given time. -/
def getCurrentNote (notes : List GameNote) (timeMs : ℚ) : Option GameNote :=
  notes.find? (fun note =>
    decide (note.startTimeMs ≤ timeMs ∧ timeMs ≤ note.endTimeMs))

/-- JavaScript Map.get on an insertion-ordered association list. -/
def jsMapGet {κ α : Type} [DecidableEq κ] (k : κ) : List (κ × α) → Option α
  | [] => none
  | (k1, v) :: rest => if k1 = k then some v else jsMapGet k rest

/-- JavaScript Map.set: replace in place when the key is present,
append otherwise. -/
def jsMapSet {κ α : Type} [DecidableEq κ] (k : κ) (v : α) :
    List (κ × α) → List (κ × α)
  | [] => [(k, v)]
  | (k1, v1) :: rest =>
    if k1 = k then (k1, v) :: rest else (k1, v1) :: jsMapSet k v rest

/-- JavaScript Map.delete. -/
def jsMapDelete {κ α : Type} [DecidableEq κ] (k : κ) :
    List (κ × α) → List (κ × α)
  | [] => []
  | (k1, v1) :: rest => if k1 = k then rest else (k1, v1) :: jsMapDelete k rest

/-- GameEngine session states (game/GameEngine.ts GameEngineState). -/
inductive GameEngineState where
  | idle
  | loading
  | ready
  | playing
  | paused
  | finished
deriving DecidableEq

/-- The error thrown by GameEngine.start outside ready / paused
(the IllegalState case of the error taxonomy). -/
inductive GameError where
  | illegalState
deriving DecidableEq

/-- GameEngine.start, state-machine part: only valid from ready or
paused, moving to playing; throws otherwise. The awaited audio side
effects are outside the model. -/
def start (s : GameEngineState) : Except GameError GameEngineState :=
  if s = GameEngineState.ready ∨ s = GameEngineState.paused then
    Except.ok GameEngineState.playing
  else Except.error GameError.illegalState

/-- GameEngine.pause: a no-op unless playing. -/
def pause (s : GameEngineState) : GameEngineState :=
  if s = GameEngineState.playing then GameEngineState.paused else s

/-- GameEngine.resume: a no-op unless paused. -/
def resume (s : GameEngineState) : GameEngineState :=
  if s = GameEngineState.paused then GameEngineState.playing else s

/-- Per-player state of the engine (game/types PlayerState). -/
structure PlayerState where
  id : ℕ
  microphoneId : String
  score : ℤ
  currentPitch : ℚ
  pitchHistory : List PitchSample
  noteScores : List (ℕ × NoteResult)

/-- The GameEngine fields addPlayer touches: the player map, the
player-to-track map, the per-player current-note index and pending
sample-buffer maps, and the note trackers keyed by track number. -/
structure EngineState where
  players : List (ℕ × PlayerState)
  playerTracks : List (ℕ × ℕ)
  currentNoteIndices : List (ℕ × ℤ)
  notePitchSamples : List (ℕ × List (ℕ × List PitchSample))
  noteTrackers : List (ℕ × List GameNote)

/-- GameEngine.addPlayer: auto-assign the track when none is given (the
first player to track 1, later players to track 2 whenever a track-2
tracker exists) and create the player's initial state. -/
def addPlayer (id : ℕ) (microphoneId : String) (track : Option ℕ)
    (e : EngineState) : EngineState :=
  let assignedTrack :=
    match track with
    | some t => t
    | none =>
      if e.players.length = 0 then 1
      else if (jsMapGet 2 e.noteTrackers).isSome then 2 else 1
  { e with
    players := jsMapSet id
      { id := id, microphoneId := microphoneId, score := 0, currentPitch := -1,
        pitchHistory := [], noteScores := [] } e.players,
    playerTracks := jsMapSet id assignedTrack e.playerTracks,
    currentNoteIndices := jsMapSet id (-1) e.currentNoteIndices,
    notePitchSamples := jsMapSet id [] e.notePitchSamples }

/-- The slice of the engine state GameEngine.update touches for one
player: the player record, its current-note index and its per-note
pending pitch-sample buffers. -/
structure PlayerTickState where
  player : PlayerState
  currentNoteIndex : ℤ
  noteSamples : List (ℕ × List PitchSample)

/-- The per-player state created by addPlayer. -/
def initPlayerTickState (id : ℕ) (microphoneId : String) : PlayerTickState :=
  { player :=
      { id := id, microphoneId := microphoneId, score := 0,
        currentPitch := -1, pitchHistory := [], noteScores := [] },
    currentNoteIndex := -1,
    noteSamples := [] }

/-- GameEngine.update, per-player body: record the tick's pitch, keep a
rolling five-second history of positive pitches, collect the sample into
the current note's pending buffer while inside a note window, and when no
note is current but the player was mid-note, score the just-finished note
(adding its earnedPoints to the running score and recording the
NoteResult) and reset the current-note index. The scorer the engine owns
is passed as a parameter. -/
def playerTick (scorer : Note → ℕ → List PitchSample → NoteResult)
    (notes : List GameNote) (st : PlayerTickState) (timeMs pitch : ℚ) :
    PlayerTickState :=
  let player0 := st.player
  let player1 :=
    { player0 with
      currentPitch := pitch,
      pitchHistory :=
        if 0 < pitch then
          (player0.pitchHistory ++ [(⟨timeMs, pitch⟩ : PitchSample)]).filter
            (fun s => decide (timeMs - 5000 < s.timeMs))
        else player0.pitchHistory }
  match getCurrentNote notes timeMs with
  | some currentNote =>
    let samples := (jsMapGet currentNote.index st.noteSamples).getD []
    { player := player1,
      noteSamples :=
        jsMapSet currentNote.index
          (samples ++ [(⟨timeMs, pitch⟩ : PitchSample)]) st.noteSamples,
      currentNoteIndex := (currentNote.index : ℤ) }
  | none =>
    if 0 ≤ st.currentNoteIndex then
      let samples := (jsMapGet st.currentNoteIndex.toNat st.noteSamples).getD []
      match notes[st.currentNoteIndex.toNat]? with
      | some note =>
        let result := scorer note.toNote note.index samples
        { player :=
            { player1 with
              score := player1.score + result.earnedPoints,
              noteScores := jsMapSet note.index result player1.noteScores },
          currentNoteIndex := -1,
          noteSamples := st.noteSamples }
      | none =>
        { player := player1, currentNoteIndex := -1,
          noteSamples := st.noteSamples }
    else
      { player := player1, currentNoteIndex := st.currentNoteIndex,
        noteSamples := st.noteSamples }

/-- Iterate playerTick over a trace of (time, pitch) pairs, one pair per
game-loop tick. -/
def runTicks (scorer : Note → ℕ → List PitchSample → NoteResult)
    (notes : List GameNote) (st : PlayerTickState)
    (trace : List (ℚ × ℚ)) : PlayerTickState :=
  trace.foldl (fun acc tp => playerTick scorer notes acc tp.1 tp.2) st

/-- Sum of earnedPoints over the recorded note results. -/
def sumEarnedPoints (m : List (ℕ × NoteResult)) : ℤ :=
  (m.map (fun kr => kr.2.earnedPoints)).sum

/-- Invariant tying a per-player state to the last tick time: the score
is the sum of earnedPoints over the recorded note results, every
recorded note's window already ended, and a pending current note started
already and is not yet recorded. -/
def ScoreInv (notes : List GameNote) (st : PlayerTickState) (t0 : ℚ) : Prop :=
  st.player.score = sumEarnedPoints st.player.noteScores ∧
  (∀ kr ∈ st.player.noteScores,
    ∃ h : kr.1 < notes.length, notes[kr.1].endTimeMs < t0) ∧
  (∀ i : ℕ, st.currentNoteIndex = (i : ℤ) →
    ∃ h : i < notes.length,
      notes[i].startTimeMs ≤ t0 ∧
      ∀ kr ∈ st.player.noteScores, kr.1 ≠ i)


/-- Stereo channel selector of a scorable input
(audio/MicrophoneManager.ts MicrophoneChannel). -/
inductive MicrophoneChannel where
  | mono
  | left
  | right
deriving DecidableEq

/-- JavaScript String.prototype.endsWith, modelled on the character
list. -/
def strEndsWith (s suffix : String) : Bool := suffix.data.isSuffixOf s.data

/-- JavaScript String.prototype.slice(0, -n), modelled on the character
list. -/
def strDropRight (s : String) (n : ℕ) : String :=
  String.mk (s.data.take (s.data.length - n))

/-- getMicrophoneInputId: deviceId for mono, deviceId:channel for a
stereo channel. -/
def getMicrophoneInputId (deviceId : String) (channel : MicrophoneChannel) :
    String :=
  match channel with
  | MicrophoneChannel.mono => deviceId
  | MicrophoneChannel.left => deviceId ++ ":left"
  | MicrophoneChannel.right => deviceId ++ ":right"

/-- parseMicrophoneInputId: recover deviceId and channel from an input
id by inspecting its suffix. -/
def parseMicrophoneInputId (inputId : String) : String × MicrophoneChannel :=
  if strEndsWith inputId ":left" then
    (strDropRight inputId 5, MicrophoneChannel.left)
  else if strEndsWith inputId ":right" then
    (strDropRight inputId 6, MicrophoneChannel.right)
  else (inputId, MicrophoneChannel.mono)

/-- A registered microphone stream (audio/MicrophoneManager.ts
MicrophoneStream): the analyser / source / pitch-detector nodes are
summarized by the identity of the underlying physical MediaStream and
the presence of the channel splitter. -/
structure MicrophoneStream where
  deviceId : String
  channel : MicrophoneChannel
  streamId : ℕ
  hasSplitter : Bool
deriving DecidableEq

/-- One entry of the sharedStreams map: the shared physical stream and
its reference count. -/
structure SharedStreamEntry where
  streamId : ℕ
  refCount : ℤ
deriving DecidableEq

/-- MicrophoneManager state: the input registry keyed by input id, the
per-device shared stereo streams with reference counts, a counter
supplying the identity of each physical capture stream getUserMedia
opens, and the set of physical streams currently capturing (opened and
not yet stopped). -/
structure MicManagerState where
  streams : List (String × MicrophoneStream)
  sharedStreams : List (String × SharedStreamEntry)
  nextStreamId : ℕ
  liveStreamIds : List ℕ
deriving DecidableEq

/-- A MicrophoneManager with no connected inputs. -/
def emptyMicManager : MicManagerState :=
  { streams := [], sharedStreams := [], nextStreamId := 0, liveStreamIds := [] }

/-- MicrophoneManager.connectMicrophone: return the registered stream if
the input is already connected; otherwise, for a stereo channel reuse
the device's shared stream (incrementing its reference count) when one
exists, else open a new physical capture stream via getUserMedia and,
for stereo, register it as the device's shared stream with reference
count 1. The happy path of the external getUserMedia await is modelled;
a splitter is attached exactly for stereo channels. -/
def connectMicrophone (deviceId : String) (channel : MicrophoneChannel)
    (m : MicManagerState) : MicManagerState × MicrophoneStream :=
  let inputId := getMicrophoneInputId deviceId channel
  match jsMapGet inputId m.streams with
  | some existing => (m, existing)
  | none =>
    let requestStereo : Bool :=
      channel = MicrophoneChannel.left ∨ channel = MicrophoneChannel.right
    match (if requestStereo then jsMapGet deviceId m.sharedStreams else none) with
    | some shared =>
      let micStream : MicrophoneStream :=
        { deviceId := deviceId, channel := channel,
          streamId := shared.streamId, hasSplitter := requestStereo }
      ({ m with
          sharedStreams := jsMapSet deviceId
            { shared with refCount := shared.refCount + 1 } m.sharedStreams,
          streams := jsMapSet inputId micStream m.streams },
        micStream)
    | none =>
      let sid := m.nextStreamId
      let micStream : MicrophoneStream :=
        { deviceId := deviceId, channel := channel, streamId := sid,
          hasSplitter := requestStereo }
      ({ m with
          nextStreamId := sid + 1,
          liveStreamIds := m.liveStreamIds ++ [sid],
          sharedStreams :=
            if requestStereo then
              jsMapSet deviceId { streamId := sid, refCount := 1 }
                m.sharedStreams
            else m.sharedStreams,
          streams := jsMapSet inputId micStream m.streams },
        micStream)

/-- MicrophoneManager.disconnectMicrophone: remove the input from the
registry; for an input id that parses to a stereo channel, decrement the
device's shared reference count and stop the physical capture only when
it reaches zero; for a mono input id, stop its physical capture stream
immediately. Stopping is modelled by removing the stream id from
liveStreamIds. -/
def disconnectMicrophone (inputId : String) (m : MicManagerState) :
    MicManagerState :=
  match jsMapGet inputId m.streams with
  | none => m
  | some micStream =>
    let parsed := parseMicrophoneInputId inputId
    if parsed.2 ≠ MicrophoneChannel.mono then
      match jsMapGet parsed.1 m.sharedStreams with
      | some shared =>
        if shared.refCount - 1 ≤ 0 then
          { m with
            streams := jsMapDelete inputId m.streams,
            sharedStreams := jsMapDelete parsed.1 m.sharedStreams,
            liveStreamIds := m.liveStreamIds.erase shared.streamId }
        else
          { m with
            streams := jsMapDelete inputId m.streams,
            sharedStreams := jsMapSet parsed.1
              { shared with refCount := shared.refCount - 1 } m.sharedStreams }
      | none => { m with streams := jsMapDelete inputId m.streams }
    else
      { m with
        streams := jsMapDelete inputId m.streams,
        liveStreamIds := m.liveStreamIds.erase micStream.streamId }

/-- MicrophoneManager.ts SMOOTHING_FACTOR. -/
def SMOOTHING_FACTOR : ℚ := 3 / 10

/-- MicrophoneManager.ts PITCH_HOLD_TIME_MS. -/
def PITCH_HOLD_TIME_MS : ℚ := 180

/-- MicrophoneManager.ts PITCH_HOLD_DECAY_RATE. -/
def PITCH_HOLD_DECAY_RATE : ℚ := 17 / 20

/-- MicrophoneManager.ts MIN_CONFIDENCE_THRESHOLD. -/
def MIN_CONFIDENCE_THRESHOLD : ℚ := 1 / 50

/-- MicrophoneManager.ts MAX_SEMITONE_JUMP. -/
def MAX_SEMITONE_JUMP : ℝ := 3

/-- Per-input pitch smoothing state (MicrophoneManager.ts
SmoothedPitchState). -/
structure SmoothedPitchState where
  lastPitch : ℚ
  lastMidiNote : ℝ
  smoothedPitch : ℚ
  lastValidPitchTime : ℚ
  holdPitch : ℚ
  confidence : ℚ

/-- MicrophoneManager.initPitchState: the state of a freshly connected
input. -/
def initPitchState : SmoothedPitchState :=
  { lastPitch := -1, lastMidiNote := -1, smoothedPitch := -1,
    lastValidPitchTime := 0, holdPitch := -1, confidence := 0 }

/-- MicrophoneManager.getPitch, per-input smoothing body: the frame's
raw pitch estimate, signal strength (RMS) and clock reading are the
externally supplied inputs of one call; returns the reported pitch and
the updated smoothing state. A frame is valid when the raw pitch is
positive and the signal strength exceeds the confidence threshold; a
valid frame is smoothed (with octave-jump damping) and becomes the hold
pitch; an invalid frame within the hold window returns the decayed hold
pitch; otherwise the smoothing state is cleared and -1 reported. -/
noncomputable def getPitchStep (state : SmoothedPitchState)
    (now rawPitch signalStrength : ℚ) : ℚ × SmoothedPitchState :=
  if 0 < rawPitch ∧ MIN_CONFIDENCE_THRESHOLD < signalStrength then
    let rawMidiNote := frequencyToMidi rawPitch
    let smoothed :=
      if 0 < state.lastMidiNote then
        if MAX_SEMITONE_JUMP < |rawMidiNote - state.lastMidiNote| then
          state.smoothedPitch * (7 / 10) + rawPitch * (3 / 10)
        else
          state.smoothedPitch * (1 - SMOOTHING_FACTOR) +
            rawPitch * SMOOTHING_FACTOR
      else rawPitch
    (smoothed,
      { lastPitch := rawPitch, lastMidiNote := rawMidiNote,
        smoothedPitch := smoothed, lastValidPitchTime := now,
        holdPitch := smoothed,
        confidence := min 1 (signalStrength * 10) })
  else if now - state.lastValidPitchTime < PITCH_HOLD_TIME_MS ∧
      0 < state.holdPitch then
    (state.holdPitch,
      { state with confidence := state.confidence * PITCH_HOLD_DECAY_RATE })
  else
    (-1,
      { state with
          smoothedPitch := -1, lastMidiNote := -1, holdPitch := -1,
          confidence := 0 })

lemma jsMapGet_set_self {κ α : Type} [DecidableEq κ] (k : κ) (v : α)
    (m : List (κ × α)) : jsMapGet k (jsMapSet k v m) = some v := by
  induction m with
  | nil => simp [jsMapGet, jsMapSet]
  | cons kv rest ih =>
    obtain ⟨k1, v1⟩ := kv
    by_cases h : k1 = k <;> simp [jsMapGet, jsMapSet, h, ih]

lemma jsMapSet_eq_append {κ α : Type} [DecidableEq κ] (k : κ) (v : α)
    (m : List (κ × α)) (hk : ∀ kr ∈ m, kr.1 ≠ k) :
    jsMapSet k v m = m ++ [(k, v)] := by
  induction m with
  | nil => simp [jsMapSet]
  | cons kv rest ih =>
    obtain ⟨k1, v1⟩ := kv
    have hne : k1 ≠ k := hk (k1, v1) (by simp)
    simp only [jsMapSet, if_neg hne, List.cons_append, List.cons.injEq, true_and]
    exact ih fun kr hkr => hk kr (by simp [hkr])

lemma sumEarnedPoints_append (m : List (ℕ × NoteResult)) (k : ℕ)
    (r : NoteResult) :
    sumEarnedPoints (m ++ [(k, r)]) = sumEarnedPoints m + r.earnedPoints := by
  simp [sumEarnedPoints]

lemma getCurrentNote_mem {notes : List GameNote} {t : ℚ} {n : GameNote}
    (h : getCurrentNote notes t = some n) :
    n ∈ notes ∧ n.startTimeMs ≤ t ∧ t ≤ n.endTimeMs := by
  refine ⟨List.mem_of_find?_eq_some h, ?_⟩
  have := List.find?_some h
  simpa using of_decide_eq_true this

lemma getCurrentNote_none {notes : List GameNote} {t : ℚ}
    (h : getCurrentNote notes t = none) :
    ∀ n ∈ notes, ¬(n.startTimeMs ≤ t ∧ t ≤ n.endTimeMs) := by
  intro n hn
  have := List.find?_eq_none.mp h n hn
  simpa using this

lemma processNotesFrom_get_index {bpm gap : ℚ} :
    ∀ (raw : List Note) (i k : ℕ)
      (h : k < (processNotesFrom bpm gap i raw).length),
      (processNotesFrom bpm gap i raw)[k].index = i + k := by
  intro raw
  induction raw with
  | nil => intro i k h; simp [processNotesFrom] at h
  | cons n rest ih =>
    intro i k h
    cases k with
    | zero => simp [processNotesFrom]
    | succ k1 =>
      have hlen : k1 < (processNotesFrom bpm gap (i + 1) rest).length := by
        simpa [processNotesFrom] using Nat.lt_of_succ_lt_succ h
      have hrec := ih (i + 1) k1 hlen
      simp only [processNotesFrom, List.getElem_cons_succ]
      simp only [hrec]
      omega

lemma processNotes_get_index (raw : List Note) (bpm gap : ℚ) (k : ℕ)
    (h : k < (processNotes raw bpm gap).length) :
    (processNotes raw bpm gap)[k].index = k := by
  simpa [processNotes] using processNotesFrom_get_index raw 0 k h

lemma getPitchAccuracy_eq_bandWeight (f : ℚ) (p : ℤ) (hf : 0 < f) :
    getPitchAccuracy f p = specBandWeight (specFoldedDistance f p) := by
  rw [getPitchAccuracy, if_neg (not_le.mpr hf)]
  rfl

/-- C1: for every normal or golden note and every nonempty sample list,
the weighted scorer returns accuracy min 1 (A + B), where A averages the
tolerance-band weight of the octave-folded semitone distance over the
samples with positive frequency and B is the participation bonus of one
tenth exactly when such a sample exists, and earnedPoints rounds
maxPoints times that accuracy. -/
theorem calculateNoteScore_weighted (note : Note) (noteIndex : ℕ)
    (samples : List PitchSample)
    (hty : note.note_type = NoteType.normal ∨ note.note_type = NoteType.golden)
    (hne : samples ≠ []) :
    (calculateNoteScore note noteIndex samples).accuracy =
        specWeightedAccuracy note samples ∧
      (calculateNoteScore note noteIndex samples).earnedPoints =
        jsRound ((specMaxPoints note : ℝ) * specWeightedAccuracy note samples) := by
  have hfree : ¬note.note_type = NoteType.freestyle := by
    rcases hty with h | h <;> simp [h]
  have hrap : ¬(note.note_type = NoteType.rap ∨
      note.note_type = NoteType.goldenrap) := by
    rcases hty with h | h <;> simp [h]
  have hlen : ¬samples.length = 0 := by simpa using hne
  have hmap : (samples.filter (fun s => 0 < s.frequency)).map
        (fun s => getPitchAccuracy s.frequency note.pitch) =
      (samples.filter (fun s => 0 < s.frequency)).map
        (fun s => specBandWeight (specFoldedDistance s.frequency note.pitch)) := by
    refine List.map_congr_left fun s hs => ?_
    exact getPitchAccuracy_eq_bandWeight s.frequency note.pitch
      (by simpa using (List.mem_filter.mp hs).2)
  have hmult : (if note.note_type = NoteType.golden ∨
        note.note_type = NoteType.goldenrap then GOLDEN_MULTIPLIER else 1) =
      (if note.note_type = NoteType.golden ∨
        note.note_type = NoteType.goldenrap then 2 else 1) := by
    rcases hty with h | h <;> simp [h, GOLDEN_MULTIPLIER]
  constructor
  · simp only [calculateNoteScore, if_neg hfree, if_neg hrap, if_neg hlen,
      specWeightedAccuracy, hmap, Nat.pos_iff_ne_zero]
    by_cases hv : (samples.filter (fun s => 0 < s.frequency)).length = 0 <;>
      simp [hv]
  · simp only [calculateNoteScore, if_neg hfree, if_neg hrap, if_neg hlen,
      specWeightedAccuracy, specMaxPoints, POINTS_PER_BEAT, hmap, hmult,
      Nat.pos_iff_ne_zero]
    by_cases hv : (samples.filter (fun s => 0 < s.frequency)).length = 0 <;>
      simp [hv]

/-- Witness for C1: a concrete normal note scored against one sample. -/
theorem calculateNoteScore_weighted_witness :
    ((⟨NoteType.normal, 0, 1, 9, "la"⟩ : Note).note_type = NoteType.normal ∨
        (⟨NoteType.normal, 0, 1, 9, "la"⟩ : Note).note_type = NoteType.golden) ∧
      ([⟨0, 440⟩] : List PitchSample) ≠ [] ∧
      ((calculateNoteScore ⟨NoteType.normal, 0, 1, 9, "la"⟩ 0
            [⟨0, 440⟩]).accuracy =
          specWeightedAccuracy ⟨NoteType.normal, 0, 1, 9, "la"⟩ [⟨0, 440⟩] ∧
        (calculateNoteScore ⟨NoteType.normal, 0, 1, 9, "la"⟩ 0
            [⟨0, 440⟩]).earnedPoints =
          jsRound ((specMaxPoints ⟨NoteType.normal, 0, 1, 9, "la"⟩ : ℝ) *
            specWeightedAccuracy ⟨NoteType.normal, 0, 1, 9, "la"⟩ [⟨0, 440⟩])) :=
  ⟨Or.inl rfl, by simp,
    calculateNoteScore_weighted ⟨NoteType.normal, 0, 1, 9, "la"⟩ 0 [⟨0, 440⟩]
      (Or.inl rfl) (by simp)⟩

lemma mem_processNotesFrom {bpm gap : ℚ} :
    ∀ (raw : List Note) (i : ℕ) (g : GameNote),
      g ∈ processNotesFrom bpm gap i raw →
      g.startTimeMs = beatToMs g.start_beat bpm gap ∧
      g.endTimeMs = beatToMs (g.start_beat + g.length) bpm gap := by
  intro raw
  induction raw with
  | nil => intro i g hg; simp [processNotesFrom] at hg
  | cons n rest ih =>
    intro i g hg
    rcases (by simpa [processNotesFrom] using hg :
        g = ({ toNote := n, index := i,
               startTimeMs := beatToMs n.start_beat bpm gap,
               endTimeMs := beatToMs (n.start_beat + n.length) bpm gap } : GameNote) ∨
          g ∈ processNotesFrom bpm gap (i + 1) rest) with h | h
    · subst h; exact ⟨rfl, rfl⟩
    · exact ih (i + 1) g h

lemma passLineBreaks_notes (nb : ℚ) :
    ∀ (lbs : List LineBreak) (phrases : List Phrase) (current : List GameNote)
      (prev : Option LineBreak),
      ((passLineBreaks nb phrases current prev lbs).1.map Phrase.notes).join ++
          (passLineBreaks nb phrases current prev lbs).2.1 =
        (phrases.map Phrase.notes).join ++ current := by
  intro lbs
  induction lbs with
  | nil => intro phrases current prev; simp [passLineBreaks]
  | cons lb rest ih =>
    intro phrases current prev
    by_cases hle : lb.start_beat ≤ nb
    · by_cases hcur : current.isEmpty
      · rw [List.isEmpty_iff] at hcur
        subst hcur
        simpa [passLineBreaks, hle] using ih phrases [] (some lb)
      · have := ih (phrases ++ [createPhrase current prev]) [] (some lb)
        simpa [passLineBreaks, hle, hcur, createPhrase] using this
    · simp [passLineBreaks, hle]

lemma buildPhrasesGo_notes :
    ∀ (notes : List GameNote) (phrases : List Phrase) (current : List GameNote)
      (prev : Option LineBreak) (lbs : List LineBreak),
      ((buildPhrasesGo notes phrases current prev lbs).map Phrase.notes).join =
        (phrases.map Phrase.notes).join ++ current ++ notes := by
  intro notes
  induction notes with
  | nil =>
    intro phrases current prev lbs
    by_cases hcur : current.isEmpty
    · rw [List.isEmpty_iff] at hcur
      subst hcur
      simp [buildPhrasesGo]
    · simp [buildPhrasesGo, hcur, createPhrase]
  | cons note rest ih =>
    intro phrases current prev lbs
    have hpass := passLineBreaks_notes note.start_beat lbs phrases current prev
    calc ((buildPhrasesGo (note :: rest) phrases current prev lbs).map
            Phrase.notes).join
        = (((passLineBreaks note.start_beat phrases current prev lbs).1.map
              Phrase.notes).join ++
            (passLineBreaks note.start_beat phrases current prev lbs).2.1) ++
            ([note] ++ rest) := by
          rw [buildPhrasesGo, ih]; simp
      _ = (phrases.map Phrase.notes).join ++ current ++ (note :: rest) := by
          rw [hpass]; simp

/-- C6: for every chart, the phrases built by the note tracker partition
the notes exactly: concatenating phrase.notes over all phrases in order
yields the full note sequence (order preserved, no duplicates, no
omissions), and a chart with zero notes yields zero phrases. -/
theorem phrases_partition_notes :
    ∀ (notes : List GameNote) (lineBreaks : List LineBreak),
      ((buildPhrases notes lineBreaks).map Phrase.notes).join = notes ∧
      buildPhrases [] lineBreaks = [] := by
  intro notes lineBreaks
  constructor
  · by_cases hempty : notes.isEmpty
    · rw [List.isEmpty_iff] at hempty
      subst hempty
      simp [buildPhrases]
    · have := buildPhrasesGo_notes notes [] [] none lineBreaks
      simpa [buildPhrases, hempty] using this
  · simp [buildPhrases]

/-- C5: every note loaded into a chart timeline gets the window
startTimeMs = gap + startBeat * (60000 / (bpm * 4)) and
endTimeMs = gap + (startBeat + lengthBeats) * (60000 / (bpm * 4)); in
particular bpm 120, gap 500, startBeat 8 yields startTimeMs 1500. -/
theorem processNotes_time_conversion :
    (∀ (raw : List Note) (bpm gap : ℚ), ∀ g ∈ processNotes raw bpm gap,
        g.startTimeMs = gap + g.start_beat * (60000 / (bpm * 4)) ∧
        g.endTimeMs = gap + (g.start_beat + g.length) * (60000 / (bpm * 4))) ∧
      beatToMs 8 120 500 = 1500 := by
  refine ⟨fun raw bpm gap g hg => ?_, by norm_num [beatToMs]⟩
  simpa [beatToMs] using mem_processNotesFrom raw 0 g hg

/-- Witness for C5 at a concrete chart: the single note with start beat 8
under bpm 120 and gap 500 is processed to the window from 1500 to 1625. -/
theorem processNotes_time_conversion_witness :
    (⟨⟨NoteType.normal, 8, 1, 0, ""⟩, 0, 1500, 1625⟩ : GameNote) ∈
        processNotes [⟨NoteType.normal, 8, 1, 0, ""⟩] 120 500 ∧
      ((⟨⟨NoteType.normal, 8, 1, 0, ""⟩, 0, 1500, 1625⟩ : GameNote).startTimeMs =
          500 + (8 : ℚ) * (60000 / (120 * 4)) ∧
        (⟨⟨NoteType.normal, 8, 1, 0, ""⟩, 0, 1500, 1625⟩ : GameNote).endTimeMs =
          500 + ((8 : ℚ) + 1) * (60000 / (120 * 4))) :=
  ⟨by norm_num [processNotes, processNotesFrom, beatToMs],
    processNotes_time_conversion.1 [⟨NoteType.normal, 8, 1, 0, ""⟩] 120 500 _
      (by norm_num [processNotes, processNotesFrom, beatToMs])⟩


lemma playerTick_scoreInv (scorer : Note → ℕ → List PitchSample → NoteResult)
    (notes : List GameNote)
    (hidx : ∀ (k : ℕ) (h : k < notes.length), notes[k].index = k)
    (st : PlayerTickState) (t0 t p : ℚ) (ht : t0 ≤ t)
    (hinv : ScoreInv notes st t0) :
    ScoreInv notes (playerTick scorer notes st t p) t := by
  obtain ⟨hsum, hdone, hcur⟩ := hinv
  cases hfind : getCurrentNote notes t with
  | some n =>
    obtain ⟨hmem, hstart, hend⟩ := getCurrentNote_mem hfind
    obtain ⟨k, hk, hget⟩ := List.mem_iff_getElem.mp hmem
    have hnidx : n.index = k := by rw [← hget]; exact hidx k hk
    refine ⟨?_, ?_, ?_⟩
    · simpa [playerTick, hfind] using hsum
    · intro kr hkr
      have hkr2 : kr ∈ st.player.noteScores := by
        simpa [playerTick, hfind] using hkr
      obtain ⟨h1, h2⟩ := hdone kr hkr2
      exact ⟨h1, lt_of_lt_of_le h2 ht⟩
    · intro i hi
      have hcast : (n.index : ℤ) = (i : ℤ) := by
        simpa [playerTick, hfind] using hi
      have hik : i = k := by
        have := hnidx ▸ hcast
        omega
      subst hik
      refine ⟨hk, ?_, ?_⟩
      · rw [hget]; exact hstart
      · intro kr hkr heq
        have hkr2 : kr ∈ st.player.noteScores := by
          simpa [playerTick, hfind] using hkr
        obtain ⟨h1, h2⟩ := hdone kr hkr2
        subst heq
        have hlt2 : n.endTimeMs < t0 := by rw [← hget]; exact h2
        linarith
  | none =>
    by_cases hge : 0 ≤ st.currentNoteIndex
    · have hci : st.currentNoteIndex = (st.currentNoteIndex.toNat : ℤ) :=
        (Int.toNat_of_nonneg hge).symm
      obtain ⟨hlt, hstart0, hnotin⟩ := hcur st.currentNoteIndex.toNat hci
      have hget2 : notes[st.currentNoteIndex.toNat]? =
          some notes[st.currentNoteIndex.toNat] := List.getElem?_eq_getElem hlt
      have hnidx := hidx st.currentNoteIndex.toNat hlt
      have hmem2 : notes[st.currentNoteIndex.toNat] ∈ notes :=
        List.getElem_mem hlt
      have hwin := getCurrentNote_none hfind _ hmem2
      have hendlt : notes[st.currentNoteIndex.toNat].endTimeMs < t := by
        by_contra hle
        push_neg at hle
        exact hwin ⟨le_trans hstart0 ht, hle⟩
      have happ : ∀ r : NoteResult,
          jsMapSet notes[st.currentNoteIndex.toNat].index r
              st.player.noteScores =
            st.player.noteScores ++
              [(notes[st.currentNoteIndex.toNat].index, r)] := fun r =>
        jsMapSet_eq_append _ _ _ (fun kr hkr => by rw [hnidx]; exact hnotin kr hkr)
      refine ⟨?_, ?_, ?_⟩
      · simp only [playerTick, hfind, if_pos hge, hget2]
        simp [happ, sumEarnedPoints_append, hsum]
      · intro kr hkr
        have hkr2 : kr ∈ st.player.noteScores ++
            [(notes[st.currentNoteIndex.toNat].index,
              scorer notes[st.currentNoteIndex.toNat].toNote
                notes[st.currentNoteIndex.toNat].index
                ((jsMapGet st.currentNoteIndex.toNat st.noteSamples).getD []))] := by
          simpa [playerTick, hfind, if_pos hge, hget2, happ] using hkr
        rcases List.mem_append.mp hkr2 with hold | hnew
        · obtain ⟨h1, h2⟩ := hdone kr hold
          exact ⟨h1, lt_of_lt_of_le h2 ht⟩
        · have hfst : kr.1 = notes[st.currentNoteIndex.toNat].index := by
            simpa using congrArg Prod.fst (List.mem_singleton.mp hnew)
          rw [hfst, hnidx]
          exact ⟨hlt, hendlt⟩
      · intro i hi
        exfalso
        simp only [playerTick, hfind, if_pos hge, hget2] at hi
        omega
    · refine ⟨?_, ?_, ?_⟩
      · simpa [playerTick, hfind, if_neg hge] using hsum
      · intro kr hkr
        have hkr2 : kr ∈ st.player.noteScores := by
          simpa [playerTick, hfind, if_neg hge] using hkr
        obtain ⟨h1, h2⟩ := hdone kr hkr2
        exact ⟨h1, lt_of_lt_of_le h2 ht⟩
      · intro i hi
        have hci : st.currentNoteIndex = (i : ℤ) := by
          simpa [playerTick, hfind, if_neg hge] using hi
        exfalso
        omega

lemma runTicks_scoreInv (scorer : Note → ℕ → List PitchSample → NoteResult)
    (notes : List GameNote)
    (hidx : ∀ (k : ℕ) (h : k < notes.length), notes[k].index = k) :
    ∀ (trace : List (ℚ × ℚ)) (st : PlayerTickState) (t0 : ℚ),
      ScoreInv notes st t0 →
      List.Chain' (· ≤ ·) (t0 :: trace.map Prod.fst) →
      ∃ t1, ScoreInv notes (runTicks scorer notes st trace) t1 := by
  intro trace
  induction trace with
  | nil => intro st t0 hinv hchain; exact ⟨t0, hinv⟩
  | cons tp rest ih =>
    intro st t0 hinv hchain
    rw [List.map_cons, List.chain'_cons] at hchain
    have hstep :=
      playerTick_scoreInv scorer notes hidx st t0 tp.1 tp.2 hchain.1 hinv
    exact ih (playerTick scorer notes st tp.1 tp.2) tp.1 hstep hchain.2

/-- C2 (amended): over any trace of game-loop ticks with monotonically
non-decreasing times, the player's score equals the sum of earnedPoints
over the note results recorded in noteScores. -/
theorem playerScore_eq_sumEarnedPoints
    (scorer : Note → ℕ → List PitchSample → NoteResult) (raw : List Note)
    (bpm gap : ℚ) (id : ℕ) (mic : String) (trace : List (ℚ × ℚ))
    (hmono : List.Chain' (· ≤ ·) (trace.map Prod.fst)) :
    (runTicks scorer (processNotes raw bpm gap) (initPlayerTickState id mic)
        trace).player.score =
      sumEarnedPoints (runTicks scorer (processNotes raw bpm gap)
        (initPlayerTickState id mic) trace).player.noteScores := by
  have hidx : ∀ (k : ℕ) (h : k < (processNotes raw bpm gap).length),
      (processNotes raw bpm gap)[k].index = k :=
    fun k h => processNotes_get_index raw bpm gap k h
  have hinv0 : ScoreInv (processNotes raw bpm gap) (initPlayerTickState id mic)
      ((trace.map Prod.fst).headD 0) := by
    refine ⟨rfl, ?_, ?_⟩
    · intro kr hkr
      simp [initPlayerTickState] at hkr
    · intro i hi
      exfalso
      have hneg : (-1 : ℤ) = (i : ℤ) := hi
      omega
  have hchain : List.Chain' (· ≤ ·)
      (((trace.map Prod.fst).headD 0) :: trace.map Prod.fst) := by
    cases htr : trace.map Prod.fst with
    | nil => simp
    | cons a l =>
      rw [htr] at hmono
      rw [List.headD_cons, List.chain'_cons]
      exact ⟨le_refl a, hmono⟩
  obtain ⟨t1, hfin⟩ :=
    runTicks_scoreInv scorer (processNotes raw bpm gap) hidx trace
      (initPlayerTickState id mic) ((trace.map Prod.fst).headD 0) hinv0 hchain
  exact hfin.1

/-- Witness for C2 (amended) on a concrete one-tick trace. -/
theorem playerScore_eq_sumEarnedPoints_witness :
    List.Chain' (· ≤ ·) (([((5 : ℚ), (440 : ℚ))].map Prod.fst)) ∧
      (runTicks calculateNoteScore (processNotes [] 120 0)
          (initPlayerTickState 1 "mic") [(5, 440)]).player.score =
        sumEarnedPoints (runTicks calculateNoteScore (processNotes [] 120 0)
          (initPlayerTickState 1 "mic") [(5, 440)]).player.noteScores :=
  ⟨by simp, playerScore_eq_sumEarnedPoints calculateNoteScore [] 120 0 1 "mic"
    [(5, 440)] (by simp)⟩

/-- Counterexample to C2 as stated: after the only note's window has
closed (second tick at 1500 ms, past the window ending at 1000 ms) the
close-out branch ran (the current-note index was reset to -1), yet the
pending pitch-sample buffer for note 0 still holds the collected sample
instead of being cleared. -/
theorem notePitchSamples_not_cleared :
    getCurrentNote (processNotes [⟨NoteType.rap, 0, 1, 0, "x"⟩] 15 0) 1500 =
        none ∧
      (runTicks calculateNoteScore
          (processNotes [⟨NoteType.rap, 0, 1, 0, "x"⟩] 15 0)
          (initPlayerTickState 1 "m")
          [(500, 440), (1500, -1)]).currentNoteIndex = -1 ∧
      jsMapGet 0 (runTicks calculateNoteScore
          (processNotes [⟨NoteType.rap, 0, 1, 0, "x"⟩] 15 0)
          (initPlayerTickState 1 "m")
          [(500, 440), (1500, -1)]).noteSamples =
        some [⟨500, 440⟩] := by
  have h1 : getCurrentNote (processNotes [⟨NoteType.rap, 0, 1, 0, "x"⟩] 15 0)
      500 = some ⟨⟨NoteType.rap, 0, 1, 0, "x"⟩, 0, 0, 1000⟩ := by
    norm_num [getCurrentNote, processNotes, processNotesFrom, beatToMs,
      List.find?]
  have h2 : getCurrentNote (processNotes [⟨NoteType.rap, 0, 1, 0, "x"⟩] 15 0)
      1500 = none := by
    norm_num [getCurrentNote, processNotes, processNotesFrom, beatToMs,
      List.find?]
  have h3 : (processNotes [⟨NoteType.rap, 0, 1, 0, "x"⟩] 15 0)[(0 : ℕ)]? =
      some ⟨⟨NoteType.rap, 0, 1, 0, "x"⟩, 0, 0, 1000⟩ := by
    norm_num [processNotes, processNotesFrom, beatToMs]
  refine ⟨h2, ?_, ?_⟩ <;>
    simp [runTicks, playerTick, h1, h2, h3, initPlayerTickState, jsMapGet,
      jsMapSet]

lemma playerTick_pitchHistory (scorer : Note → ℕ → List PitchSample → NoteResult)
    (notes : List GameNote) (st : PlayerTickState) (t p : ℚ) :
    (playerTick scorer notes st t p).player.pitchHistory =
      if 0 < p then
        (st.player.pitchHistory ++ [(⟨t, p⟩ : PitchSample)]).filter
          (fun s => decide (t - 5000 < s.timeMs))
      else st.player.pitchHistory := by
  cases hfind : getCurrentNote notes t with
  | some n => simp [playerTick, hfind]
  | none =>
    by_cases hge : 0 ≤ st.currentNoteIndex
    · cases hget : notes[st.currentNoteIndex.toNat]? with
      | some note => simp [playerTick, hfind, hge, hget]
      | none => simp [playerTick, hfind, hge, hget]
    · simp [playerTick, hfind, hge]

lemma playerTick_pitchHistory_pos
    (scorer : Note → ℕ → List PitchSample → NoteResult)
    (notes : List GameNote) (st : PlayerTickState) (t p : ℚ)
    (hpos : ∀ s ∈ st.player.pitchHistory, 0 < s.frequency) :
    ∀ s ∈ (playerTick scorer notes st t p).player.pitchHistory,
      0 < s.frequency := by
  intro s hs
  rw [playerTick_pitchHistory] at hs
  by_cases hp : 0 < p
  · rw [if_pos hp] at hs
    have hs2 := List.mem_of_mem_filter hs
    rcases List.mem_append.mp hs2 with h | h
    · exact hpos s h
    · have hse := List.mem_singleton.mp h
      rw [hse]
      exact hp
  · rw [if_neg hp] at hs
    exact hpos s hs

lemma runTicks_pitchHistory_pos
    (scorer : Note → ℕ → List PitchSample → NoteResult)
    (notes : List GameNote) :
    ∀ (trace : List (ℚ × ℚ)) (st : PlayerTickState),
      (∀ s ∈ st.player.pitchHistory, 0 < s.frequency) →
      ∀ s ∈ (runTicks scorer notes st trace).player.pitchHistory,
        0 < s.frequency := by
  intro trace
  induction trace with
  | nil => intro st h; exact h
  | cons tp rest ih =>
    intro st h
    exact ih (playerTick scorer notes st tp.1 tp.2)
      (playerTick_pitchHistory_pos scorer notes st tp.1 tp.2 h)

/-- C10: starting from a fresh player, the rolling pitch history only
ever contains samples with positive frequency (the -1 sentinel is never
appended), while the per-note pending buffer records the sample of every
tick inside a note window, whatever its frequency. -/
theorem pitchHistory_only_positive
    (scorer : Note → ℕ → List PitchSample → NoteResult)
    (notes : List GameNote) (id : ℕ) (mic : String) :
    (∀ (trace : List (ℚ × ℚ)),
      ∀ s ∈ (runTicks scorer notes (initPlayerTickState id mic)
          trace).player.pitchHistory, 0 < s.frequency) ∧
    (∀ (st : PlayerTickState) (t p : ℚ) (n : GameNote),
      getCurrentNote notes t = some n →
      jsMapGet n.index (playerTick scorer notes st t p).noteSamples =
        some (((jsMapGet n.index st.noteSamples).getD []) ++ [⟨t, p⟩])) := by
  constructor
  · intro trace
    refine runTicks_pitchHistory_pos scorer notes trace _ ?_
    intro s hs
    simp [initPlayerTickState] at hs
  · intro st t p n hfind
    simp [playerTick, hfind, jsMapGet_set_self]

/-- Witness for C10: a tick inside a concrete note window with the
no-pitch sentinel -1 still lands in the pending buffer. -/
theorem pitchHistory_only_positive_witness :
    getCurrentNote (processNotes [⟨NoteType.normal, 0, 1, 0, "x"⟩] 15 0) 500 =
        some ⟨⟨NoteType.normal, 0, 1, 0, "x"⟩, 0, 0, 1000⟩ ∧
      jsMapGet (⟨⟨NoteType.normal, 0, 1, 0, "x"⟩, 0, 0, 1000⟩ : GameNote).index
          (playerTick calculateNoteScore
            (processNotes [⟨NoteType.normal, 0, 1, 0, "x"⟩] 15 0)
            (initPlayerTickState 1 "m") 500 (-1)).noteSamples =
        some (((jsMapGet
            (⟨⟨NoteType.normal, 0, 1, 0, "x"⟩, 0, 0, 1000⟩ : GameNote).index
            (initPlayerTickState 1 "m").noteSamples).getD []) ++
          [⟨500, -1⟩]) := by
  have h1 : getCurrentNote (processNotes [⟨NoteType.normal, 0, 1, 0, "x"⟩] 15 0)
      500 = some ⟨⟨NoteType.normal, 0, 1, 0, "x"⟩, 0, 0, 1000⟩ := by
    norm_num [getCurrentNote, processNotes, processNotesFrom, beatToMs,
      List.find?]
  exact ⟨h1, (pitchHistory_only_positive calculateNoteScore
    (processNotes [⟨NoteType.normal, 0, 1, 0, "x"⟩] 15 0) 1 "m").2
    (initPlayerTickState 1 "m") 500 (-1) _ h1⟩

/-- C9: start succeeds, moving to playing, exactly from ready or paused
and fails with IllegalState from every other state, finished included;
pause only has an effect from playing and resume only from paused. -/
theorem start_pause_resume_state_machine (s : GameEngineState) :
    (start s = Except.ok GameEngineState.playing ↔
      s = GameEngineState.ready ∨ s = GameEngineState.paused) ∧
    (¬(s = GameEngineState.ready ∨ s = GameEngineState.paused) →
      start s = Except.error GameError.illegalState) ∧
    (s ≠ GameEngineState.playing → pause s = s) ∧
    pause GameEngineState.playing = GameEngineState.paused ∧
    (s ≠ GameEngineState.paused → resume s = s) ∧
    resume GameEngineState.paused = GameEngineState.playing := by
  cases s <;> simp [start, pause, resume]

/-- Witness for C9 at the finished and ready states. -/
theorem start_pause_resume_state_machine_witness :
    ¬(GameEngineState.finished = GameEngineState.ready ∨
        GameEngineState.finished = GameEngineState.paused) ∧
      start GameEngineState.finished = Except.error GameError.illegalState ∧
      GameEngineState.ready ≠ GameEngineState.playing ∧
      pause GameEngineState.ready = GameEngineState.ready :=
  ⟨by simp, (start_pause_resume_state_machine GameEngineState.finished).2.1
      (by simp),
    by simp,
    (start_pause_resume_state_machine GameEngineState.ready).2.2.1 (by simp)⟩

/-- C4 (amended): a player added without an explicit track gets track 1
when it is the first player, otherwise track 2 whenever a track-2
tracker exists (regardless of existing bindings) and track 1 otherwise;
an explicit track argument always wins. -/
theorem addPlayer_track_assignment (id : ℕ) (mic : String) (e : EngineState) :
    (e.players.length = 0 →
      jsMapGet id (addPlayer id mic none e).playerTracks = some 1) ∧
    (e.players.length ≠ 0 → (jsMapGet 2 e.noteTrackers).isSome = true →
      jsMapGet id (addPlayer id mic none e).playerTracks = some 2) ∧
    (e.players.length ≠ 0 → jsMapGet 2 e.noteTrackers = none →
      jsMapGet id (addPlayer id mic none e).playerTracks = some 1) ∧
    (∀ t, jsMapGet id (addPlayer id mic (some t) e).playerTracks = some t) := by
  refine ⟨fun h0 => ?_, fun h0 h2 => ?_, fun h0 h2 => ?_, fun t => ?_⟩
  · simp [addPlayer, h0, jsMapGet_set_self]
  · simp [addPlayer, h0, h2, jsMapGet_set_self]
  · simp [addPlayer, h0, h2, jsMapGet_set_self]
  · simp [addPlayer, jsMapGet_set_self]

/-- Counterexample to C4 as stated: on a duet chart, a third player
added without an explicit track is bound to track 2 again, not back to
track 1 as the claim demands. -/
theorem addPlayer_duet_third_counterexample :
    jsMapGet 3 (addPlayer 3 "c" none (addPlayer 2 "b" none (addPlayer 1 "a"
        none
        { players := [], playerTracks := [], currentNoteIndices := [],
          notePitchSamples := [],
          noteTrackers := [(1, []), (2, [])] }))).playerTracks = some 2 ∧
    ¬jsMapGet 3 (addPlayer 3 "c" none (addPlayer 2 "b" none (addPlayer 1 "a"
        none
        { players := [], playerTracks := [], currentNoteIndices := [],
          notePitchSamples := [],
          noteTrackers := [(1, []), (2, [])] }))).playerTracks = some 1 := by
  constructor <;> simp [addPlayer, jsMapGet, jsMapSet]

/-- Witness for C4 (amended): the second player on a duet chart gets
track 2. -/
theorem addPlayer_track_assignment_witness :
    (addPlayer 1 "a" none
        { players := [], playerTracks := [], currentNoteIndices := [],
          notePitchSamples := [],
          noteTrackers := [(1, []), (2, [])] }).players.length ≠ 0 ∧
      (jsMapGet 2 (addPlayer 1 "a" none
          { players := [], playerTracks := [], currentNoteIndices := [],
            notePitchSamples := [],
            noteTrackers := [(1, []), (2, [])] }).noteTrackers).isSome =
        true ∧
      jsMapGet 2 (addPlayer 2 "b" none (addPlayer 1 "a" none
          { players := [], playerTracks := [], currentNoteIndices := [],
            notePitchSamples := [],
            noteTrackers := [(1, []), (2, [])] })).playerTracks = some 2 := by
  have h0 : (addPlayer 1 "a" none
      { players := [], playerTracks := [], currentNoteIndices := [],
        notePitchSamples := [],
        noteTrackers := [(1, []), (2, [])] } : EngineState).players.length ≠
      0 := by
    simp [addPlayer, jsMapSet]
  have h2 : (jsMapGet 2 (addPlayer 1 "a" none
      { players := [], playerTracks := [], currentNoteIndices := [],
        notePitchSamples := [],
        noteTrackers := [(1, []), (2, [])] } : EngineState).noteTrackers).isSome =
      true := by
    simp [addPlayer, jsMapGet]
  exact ⟨h0, h2, (addPlayer_track_assignment 2 "b" _).2.1 h0 h2⟩


/-- C3 (amended): connecting deviceA left then right opens exactly one
physical capture stream, shared with reference count 2; disconnecting
one input keeps it alive with reference count 1; disconnecting both
stops the capture and removes the shared entry. A mono connect never
reuses or registers a shared stream and always opens its own capture
stream, and a mono input whose deviceId does not end in the channel
suffixes is stopped immediately on disconnect. -/
theorem stereoRouter_refcount :
    ((connectMicrophone "deviceA" MicrophoneChannel.right
          (connectMicrophone "deviceA" MicrophoneChannel.left
            emptyMicManager).1).1.liveStreamIds.length = 1 ∧
      jsMapGet "deviceA" (connectMicrophone "deviceA" MicrophoneChannel.right
          (connectMicrophone "deviceA" MicrophoneChannel.left
            emptyMicManager).1).1.sharedStreams =
        some { streamId := 0, refCount := 2 }) ∧
    ((disconnectMicrophone "deviceA:left"
          (connectMicrophone "deviceA" MicrophoneChannel.right
            (connectMicrophone "deviceA" MicrophoneChannel.left
              emptyMicManager).1).1).liveStreamIds.length = 1 ∧
      jsMapGet "deviceA" (disconnectMicrophone "deviceA:left"
          (connectMicrophone "deviceA" MicrophoneChannel.right
            (connectMicrophone "deviceA" MicrophoneChannel.left
              emptyMicManager).1).1).sharedStreams =
        some { streamId := 0, refCount := 1 }) ∧
    ((disconnectMicrophone "deviceA:right" (disconnectMicrophone "deviceA:left"
          (connectMicrophone "deviceA" MicrophoneChannel.right
            (connectMicrophone "deviceA" MicrophoneChannel.left
              emptyMicManager).1).1)).liveStreamIds = [] ∧
      jsMapGet "deviceA" (disconnectMicrophone "deviceA:right"
          (disconnectMicrophone "deviceA:left"
            (connectMicrophone "deviceA" MicrophoneChannel.right
              (connectMicrophone "deviceA" MicrophoneChannel.left
                emptyMicManager).1).1)).sharedStreams = none) ∧
    (∀ (d : String) (m : MicManagerState),
      jsMapGet d m.streams = none →
      (connectMicrophone d MicrophoneChannel.mono m).1.sharedStreams =
          m.sharedStreams ∧
        (connectMicrophone d MicrophoneChannel.mono m).2.streamId =
          m.nextStreamId ∧
        (connectMicrophone d MicrophoneChannel.mono m).1.liveStreamIds =
          m.liveStreamIds ++ [m.nextStreamId]) ∧
    (∀ (d : String) (m : MicManagerState) (ms : MicrophoneStream),
      strEndsWith d ":left" = false → strEndsWith d ":right" = false →
      jsMapGet d m.streams = some ms →
      (disconnectMicrophone d m).liveStreamIds =
          m.liveStreamIds.erase ms.streamId ∧
        (disconnectMicrophone d m).streams = jsMapDelete d m.streams) := by
  refine ⟨?_, ?_, ?_, ?_, ?_⟩
  · constructor <;> decide
  · constructor <;> decide
  · constructor <;> decide
  · intro d m h
    simp [connectMicrophone, getMicrophoneInputId, h]
  · intro d m ms h1 h2 h3
    have hparse : parseMicrophoneInputId d = (d, MicrophoneChannel.mono) := by
      simp [parseMicrophoneInputId, h1, h2]
    simp [disconnectMicrophone, h3, hparse]

/-- Counterexample to the universal mono clause of C3: a device whose id
literally ends in ":left", connected as a mono input, is misparsed as a
stereo input on disconnect; the input is removed from the registry but
its physical capture stream is never stopped. -/
theorem monoDisconnect_leak_counterexample :
    (disconnectMicrophone "a:left"
        (connectMicrophone "a:left" MicrophoneChannel.mono
          emptyMicManager).1).streams = [] ∧
      (disconnectMicrophone "a:left"
          (connectMicrophone "a:left" MicrophoneChannel.mono
            emptyMicManager).1).liveStreamIds = [0] := by
  constructor <;> decide

/-- C8: connecting an already-connected (deviceId, channel) input is
idempotent: the registered stream is returned and the manager state,
including every reference count and the set of live capture streams, is
unchanged. -/
theorem connectMicrophone_idempotent (deviceId : String)
    (channel : MicrophoneChannel) (m : MicManagerState)
    (ms : MicrophoneStream)
    (h : jsMapGet (getMicrophoneInputId deviceId channel) m.streams = some ms) :
    connectMicrophone deviceId channel m = (m, ms) := by
  simp [connectMicrophone, h]

/-- Witness for C8: reconnecting deviceA left after connecting it. -/
theorem connectMicrophone_idempotent_witness :
    jsMapGet (getMicrophoneInputId "deviceA" MicrophoneChannel.left)
        (connectMicrophone "deviceA" MicrophoneChannel.left
          emptyMicManager).1.streams =
      some (connectMicrophone "deviceA" MicrophoneChannel.left
        emptyMicManager).2 ∧
    connectMicrophone "deviceA" MicrophoneChannel.left
        (connectMicrophone "deviceA" MicrophoneChannel.left
          emptyMicManager).1 =
      ((connectMicrophone "deviceA" MicrophoneChannel.left
          emptyMicManager).1,
        (connectMicrophone "deviceA" MicrophoneChannel.left
          emptyMicManager).2) := by
  have h : jsMapGet (getMicrophoneInputId "deviceA" MicrophoneChannel.left)
      (connectMicrophone "deviceA" MicrophoneChannel.left
        emptyMicManager).1.streams =
      some (connectMicrophone "deviceA" MicrophoneChannel.left
        emptyMicManager).2 := by decide
  exact ⟨h, connectMicrophone_idempotent "deviceA" MicrophoneChannel.left
    (connectMicrophone "deviceA" MicrophoneChannel.left emptyMicManager).1
    (connectMicrophone "deviceA" MicrophoneChannel.left emptyMicManager).2 h⟩

/-- C7: on an invalid frame (no positive raw pitch or signal strength
not above 0.02), the tracker returns the decayed hold pitch when the
elapsed time since the last valid pitch is under 180 ms and a positive
hold pitch exists, multiplying confidence by 0.85; otherwise it clears
the smoothing state and returns -1 (in particular, a single invalid
frame with no prior hold returns -1). -/
theorem getPitch_invalid_frame (state : SmoothedPitchState)
    (now rawPitch signalStrength : ℚ)
    (hinv : ¬(0 < rawPitch ∧ MIN_CONFIDENCE_THRESHOLD < signalStrength)) :
    (now - state.lastValidPitchTime < PITCH_HOLD_TIME_MS ∧
        0 < state.holdPitch →
      getPitchStep state now rawPitch signalStrength =
        (state.holdPitch,
          { state with
            confidence := state.confidence * PITCH_HOLD_DECAY_RATE })) ∧
    (¬(now - state.lastValidPitchTime < PITCH_HOLD_TIME_MS ∧
        0 < state.holdPitch) →
      getPitchStep state now rawPitch signalStrength =
        (-1,
          { state with
              smoothedPitch := -1, lastMidiNote := -1,
              holdPitch := -1, confidence := 0 })) := by
  constructor <;> intro h <;> simp [getPitchStep, hinv, h]

/-- Witness for C7: a single silent frame on a fresh input (no prior
hold) returns -1 and clears the state. -/
theorem getPitch_invalid_frame_witness :
    (¬((0 : ℚ) < -1 ∧ MIN_CONFIDENCE_THRESHOLD < (0 : ℚ))) ∧
      (¬((0 : ℚ) - initPitchState.lastValidPitchTime < PITCH_HOLD_TIME_MS ∧
        (0 : ℚ) < initPitchState.holdPitch)) ∧
      getPitchStep initPitchState 0 (-1) 0 =
        (-1,
          { initPitchState with
              smoothedPitch := -1, lastMidiNote := -1,
              holdPitch := -1, confidence := 0 }) := by
  have h1 : ¬((0 : ℚ) < -1 ∧ MIN_CONFIDENCE_THRESHOLD < (0 : ℚ)) := by
    norm_num
  have h2 : ¬((0 : ℚ) - initPitchState.lastValidPitchTime <
      PITCH_HOLD_TIME_MS ∧ (0 : ℚ) < initPitchState.holdPitch) := by
    norm_num [initPitchState]
  exact ⟨h1, h2, (getPitch_invalid_frame initPitchState 0 (-1) 0 h1).2 h2⟩


/-- Witness for C3 (amended): the mono clauses at a concrete device. -/
theorem stereoRouter_refcount_witness :
    (jsMapGet "deviceB" emptyMicManager.streams = none ∧
      (connectMicrophone "deviceB" MicrophoneChannel.mono
          emptyMicManager).1.sharedStreams = emptyMicManager.sharedStreams ∧
      (connectMicrophone "deviceB" MicrophoneChannel.mono
          emptyMicManager).2.streamId = emptyMicManager.nextStreamId ∧
      (connectMicrophone "deviceB" MicrophoneChannel.mono
          emptyMicManager).1.liveStreamIds =
        emptyMicManager.liveStreamIds ++ [emptyMicManager.nextStreamId]) ∧
    (strEndsWith "deviceB" ":left" = false ∧
      strEndsWith "deviceB" ":right" = false ∧
      jsMapGet "deviceB" (connectMicrophone "deviceB" MicrophoneChannel.mono
          emptyMicManager).1.streams =
        some (connectMicrophone "deviceB" MicrophoneChannel.mono
          emptyMicManager).2 ∧
      (disconnectMicrophone "deviceB" (connectMicrophone "deviceB"
          MicrophoneChannel.mono emptyMicManager).1).liveStreamIds =
        (connectMicrophone "deviceB" MicrophoneChannel.mono
            emptyMicManager).1.liveStreamIds.erase
          (connectMicrophone "deviceB" MicrophoneChannel.mono
            emptyMicManager).2.streamId ∧
      (disconnectMicrophone "deviceB" (connectMicrophone "deviceB"
          MicrophoneChannel.mono emptyMicManager).1).streams =
        jsMapDelete "deviceB" (connectMicrophone "deviceB"
          MicrophoneChannel.mono emptyMicManager).1.streams) := by
  have hn : jsMapGet "deviceB" emptyMicManager.streams = none := by decide
  have h1 : strEndsWith "deviceB" ":left" = false := by decide
  have h2 : strEndsWith "deviceB" ":right" = false := by decide
  have h3 : jsMapGet "deviceB" (connectMicrophone "deviceB"
      MicrophoneChannel.mono emptyMicManager).1.streams =
      some (connectMicrophone "deviceB" MicrophoneChannel.mono
        emptyMicManager).2 := by decide
  exact ⟨⟨hn, stereoRouter_refcount.2.2.2.1 "deviceB" emptyMicManager hn⟩,
    ⟨h1, h2, h3, stereoRouter_refcount.2.2.2.2 "deviceB"
      (connectMicrophone "deviceB" MicrophoneChannel.mono emptyMicManager).1
      (connectMicrophone "deviceB" MicrophoneChannel.mono emptyMicManager).2
      h1 h2 h3⟩⟩

end Frank
